import Mathlib

/-!
Verification of the TripleTen integration-analytics data pipeline
(`scripts/data_prep.py`, `src/parsers/youtube_parser.py`,
`src/analysis/merge_and_calculate.py`).

Modelling conventions (shallow embedding):
* Python floats are modelled exactly as `PFloat`: either `nan` or a rational
  number.  The claims under verification concern null/NaN/zero handling, not
  IEEE rounding; binary rounding, overflow to infinity and the `inf` literal
  are outside the model.
* Python cell values (the entries of a pandas column) are `PyVal`: `None`,
  a float, an int, or a string.
* Python `str.strip` / `str.lower` are modelled over ASCII (`pyStrip`,
  `pyLower`); the data processed by the pipeline is ASCII in all claims.
* `str(x)` is `pyStr`.  For a finite float, CPython guarantees
  `float(str(x)) == x` (repr round-trip); the model uses this fact where the
  source sends a float through `str` and back through `float`.
-/

namespace TripleTen

/-- A Python float: NaN or a (finite) numeric value, modelled exactly. -/
inductive PFloat where
  | nan : PFloat
  | num : ℚ → PFloat
deriving DecidableEq

/-- A Python cell value as read from / stored in a pandas column. -/
inductive PyVal where
  | vNone : PyVal
  | vFloat : PFloat → PyVal
  | vInt : ℤ → PyVal
  | vStr : String → PyVal
deriving DecidableEq

/-- Whitespace recognized by Python `str.strip()` (ASCII fragment). -/
def isSp (c : Char) : Bool :=
  c = ' ' || c = '\t' || c = '\n' || c = '\r' || c = '\x0B' || c = '\x0C'

/-- The character map underlying `s.replace(",", ".")`. -/
def commaDot (c : Char) : Char := if c = ',' then '.' else c

/-- Lowers only the exponent marker, used when scanning float literals. -/
def eLow (c : Char) : Char := if c = 'E' then 'e' else c

/-- Left-then-right whitespace strip on a character list. -/
def stripL (l : List Char) : List Char :=
  ((l.dropWhile isSp).reverse.dropWhile isSp).reverse

/-- Python `str.strip()`. -/
def pyStrip (s : String) : String := ⟨stripL s.data⟩

/-- Python `str.lower()` (ASCII fragment, which is all the pipeline compares). -/
def pyLower (s : String) : String := ⟨s.data.map Char.toLower⟩

/-- Numeric value of a digit string (most significant first). -/
def digitsVal (cs : List Char) : ℕ :=
  cs.foldl (fun a c => a * 10 + (c.toNat - 48)) 0

/-- The decimal digit character for `k % 10`. -/
def digitChar (k : ℕ) : Char := Char.ofNat (48 + k % 10)

/-- Splits a character list on a separator character (like `str.split(sep)`),
never returning an empty list of chunks. -/
def splitCh (sep : Char) : List Char → List (List Char)
  | [] => [[]]
  | c :: cs =>
    match splitCh sep cs with
    | [] => [[c]]
    | h :: t => if c = sep then [] :: h :: t else (c :: h) :: t

/-- Mantissa of a Python float literal: digits with at most one dot. -/
def mantQ (cs : List Char) : Option ℚ :=
  match splitCh '.' cs with
  | [a] => if a ≠ [] && a.all Char.isDigit then some (digitsVal a) else none
  | [a, b] =>
    if (a ++ b) ≠ [] && (a ++ b).all Char.isDigit then
      some ((digitsVal a : ℚ) + (digitsVal b : ℚ) / ((10 : ℚ) ^ b.length))
    else none
  | _ => none

/-- Signed decimal integer (for float exponents). -/
def signedIntQ (cs : List Char) : Option ℤ :=
  match cs with
  | c :: r =>
    if c = '+' then (if r ≠ [] && r.all Char.isDigit then some (digitsVal r) else none)
    else if c = '-' then
      (if r ≠ [] && r.all Char.isDigit then some (-(digitsVal r : ℤ)) else none)
    else if (c :: r).all Char.isDigit then some (digitsVal (c :: r)) else none
  | [] => none

/-- Unsigned Python float literal: mantissa with optional exponent part. -/
def unsignedQ (cs : List Char) : Option ℚ :=
  match splitCh 'e' (cs.map eLow) with
  | [m] => mantQ m
  | [m, ex] => (mantQ m).bind fun q => (signedIntQ ex).map fun k => q * (10 : ℚ) ^ k
  | _ => none

/-- `float(s)` on an already-stripped string, modelled exactly over ℚ.
Finite decimal literals only: the `inf`/`nan` word forms and digit-grouping
underscores accepted by CPython are not represented (no claim touches them). -/
def pyFloatQ (cs : List Char) : Option ℚ :=
  match cs with
  | c :: r =>
    if c = '+' then unsignedQ r
    else if c = '-' then (unsignedQ r).map Neg.neg
    else unsignedQ (c :: r)
  | [] => unsignedQ []

/-- A calendar date as produced by the date pipeline. -/
structure DateYMD where
  y : ℕ
  m : ℕ
  d : ℕ
deriving DecidableEq

/-- Gregorian leap-year rule (as validated by `datetime`). -/
def isLeap (y : ℕ) : Bool := y % 4 = 0 && (y % 100 ≠ 0 || y % 400 = 0)

/-- Days in a month, as `datetime` validates day-of-month. -/
def daysInMonth (y m : ℕ) : ℕ :=
  if m = 2 then (if isLeap y then 29 else 28)
  else if m = 4 || m = 6 || m = 9 || m = 11 then 30
  else 31

/-- `datetime(y, m, d)` validity check (strptime already bounds `m`, `d`). -/
def mkDate (y m d : ℕ) : Option DateYMD :=
  if 1 ≤ y && y ≤ 9999 && 1 ≤ m && m ≤ 12 && 1 ≤ d && d ≤ daysInMonth y m then
    some ⟨y, m, d⟩
  else none

/-- A 1-or-2-digit strptime field (`%d` / `%m`), value in `[1, hi]`. -/
def field2 (hi : ℕ) (cs : List Char) : Option ℕ :=
  if (cs.length = 1 || cs.length = 2) && cs.all Char.isDigit
      && 1 ≤ digitsVal cs && digitsVal cs ≤ hi then
    some (digitsVal cs)
  else none

/-- The exactly-4-digit strptime `%Y` field. -/
def field4 (cs : List Char) : Option ℕ :=
  if cs.length = 4 && cs.all Char.isDigit then some (digitsVal cs) else none

/-- `datetime.strptime(s, "%d/%m/%Y")` as an optional date. -/
def parseDMY (cs : List Char) : Option DateYMD :=
  match splitCh '/' cs with
  | [a, b, c] =>
    (field2 31 a).bind fun d =>
      (field2 12 b).bind fun m => (field4 c).bind fun y => mkDate y m d
  | _ => none

/-- `datetime.strptime(s, "%Y-%m-%d")` as an optional date. -/
def parseISO (cs : List Char) : Option DateYMD :=
  match splitCh '-' cs with
  | [a, b, c] =>
    (field4 a).bind fun y =>
      (field2 12 b).bind fun m => (field2 31 c).bind fun d => mkDate y m d
  | _ => none

/-- `datetime.strptime(s, "%m/%d/%Y")` as an optional date. -/
def parseMDY (cs : List Char) : Option DateYMD :=
  match splitCh '/' cs with
  | [a, b, c] =>
    (field2 12 a).bind fun m =>
      (field2 31 b).bind fun d => (field4 c).bind fun y => mkDate y m d
  | _ => none

/-- Zero-padded 4-digit year rendering of `strftime("%Y")`. -/
def pad4 (y : ℕ) : List Char :=
  [digitChar (y / 1000), digitChar (y / 100), digitChar (y / 10), digitChar y]

/-- Zero-padded 2-digit rendering of `strftime("%m")` / `strftime("%d")`. -/
def pad2 (m : ℕ) : List Char := [digitChar (m / 10), digitChar m]

/-- `strftime("%Y-%m-%d")`. -/
def fmtISO (dd : DateYMD) : String :=
  ⟨pad4 dd.y ++ '-' :: (pad2 dd.m ++ '-' :: pad2 dd.d)⟩

/-- Civil date from a day count relative to 1970-01-01 (proleptic Gregorian),
the arithmetic `datetime` performs for `date(1899, 12, 30) + timedelta(days)`. -/
def civilFromDays (z : ℤ) : DateYMD :=
  let zsh : ℤ := z + 719468
  let era : ℤ := zsh.fdiv 146097
  let doe : ℕ := (zsh - era * 146097).toNat
  let yoe : ℕ := (doe - doe / 1460 + doe / 36524 - doe / 146096) / 365
  let doy : ℕ := doe - (365 * yoe + yoe / 4 - yoe / 100)
  let mp : ℕ := (5 * doy + 2) / 153
  let d : ℕ := doy - (153 * mp + 2) / 5 + 1
  let m : ℕ := if mp < 10 then mp + 3 else mp - 9
  ⟨((yoe : ℤ) + era * 400 + (if m ≤ 2 then 1 else 0)).toNat, m, d⟩

/-- `datetime(1899, 12, 30) + timedelta(days=n)` (Excel serial epoch;
serial 25569 is 1970-01-01). -/
def excelCivil (n : ℤ) : DateYMD := civilFromDays (n - 25569)

/-- Python `int(q)` for a finite float value: truncation toward zero. -/
def qtrunc (q : ℚ) : ℤ := if 0 ≤ q then ⌊q⌋ else ⌈q⌉

/-- Decimal rendering of an integer, as `str(int)`. -/
def intRepr (n : ℤ) : String := toString n

/-- Smallest power of ten clearing the denominator, when one exists below 10^20
(always, for values that a Python float can hold). -/
def decExp (q : ℚ) : Option ℕ := (List.range 21).find? fun k => (q * 10 ^ k).den = 1

/-- Decimal rendering of a finite float value, as `str(float)`:
a sign, digits, and a decimal point.  Values without a finite decimal
expansion cannot arise from a Python float; they get a fraction spelling. -/
def floatRepr (q : ℚ) : String :=
  let sgn : String := if q < 0 then "-" else ""
  let a : ℚ := |q|
  match decExp a with
  | some 0 => sgn ++ intRepr a.num ++ ".0"
  | some k =>
    let s := Nat.repr (a * 10 ^ k).num.toNat
    let s := String.mk (List.replicate (k + 1 - min (k + 1) s.length) '0') ++ s
    sgn ++ String.mk (s.data.take (s.data.length - k)) ++ "." ++
      String.mk (s.data.drop (s.data.length - k))
  | none => sgn ++ intRepr a.num ++ "/" ++ Nat.repr a.den

/-- Python `str(x)` for the cell values the pipeline sees. -/
def pyStr (v : PyVal) : String :=
  match v with
  | .vNone => "None"
  | .vFloat .nan => "nan"
  | .vFloat (.num q) => floatRepr q
  | .vInt n => intRepr n
  | .vStr s => s

/-- Core of `convert_excel_date` on the stripped string form of the cell
(`scripts/data_prep.py`): try `%d/%m/%Y`, `%Y-%m-%d`, `%m/%d/%Y` in order,
then the Excel serial window `1 < n < 100000`, else return the input. -/
def convDateStr (s : String) : String :=
  match parseDMY s.data with
  | some d => fmtISO d
  | none =>
    match parseISO s.data with
    | some d => fmtISO d
    | none =>
      match parseMDY s.data with
      | some d => fmtISO d
      | none =>
        match pyFloatQ (s.data.map commaDot) with
        | some q =>
          let n := qtrunc q
          if 1 < n && n < 100000 then fmtISO (excelCivil n) else s
        | none => s

/-- `convert_excel_date` (`scripts/data_prep.py`): stringify and strip the
cell, then run the ordered parse chain. -/
def convert_excel_date (v : PyVal) : String := convDateStr (pyStrip (pyStr v))

/-- `parse_european_number` (`scripts/data_prep.py`).  The float branch:
the source sends the float through `str` and `float`; for a finite float the
repr round-trip returns the value unchanged (`str` of a finite float is a
non-empty decimal literal without commas, never the word `nan`). -/
def parse_european_number (v : PyVal) : PFloat :=
  match v with
  | .vNone => .nan
  | .vFloat .nan => .nan
  | .vFloat (.num q) => .num q
  | .vInt n =>
    -- str(n) is a decimal integer literal; float(str(n)) == n exactly.
    .num n
  | .vStr s =>
    let t := pyStrip s
    if t = "" || pyLower t = "nan" then .nan
    else
      match pyFloatQ (t.data.map commaDot) with
      | some q => .num q
      | none => .nan

/-- Character class `[a-zA-Z0-9_-]` of YouTube video IDs. -/
def idClass (c : Char) : Bool := c.isAlphanum || c = '_' || c = '-'

/-- Captures `{11}` characters of `idClass` at the head of the list, if present. -/
def take11 (l : List Char) : Option (List Char) :=
  let t := l.take 11
  if t.length = 11 && t.all idClass then some t else none

/-- Leftmost position where `lit` occurs followed by 11 id-class characters;
the capture of `re.search(lit + "([a-zA-Z0-9_-]{11})", url)`. -/
def searchLit11 (lit : List Char) : List Char → Option (List Char)
  | [] => none
  | c :: rest =>
    match (if lit.isPrefixOf (c :: rest) then take11 ((c :: rest).drop lit.length) else none) with
    | some r => some r
    | none => searchLit11 lit rest

/-- Rightmost `v=` followed by 11 id-class characters (the greedy `.*v=`). -/
def lastVeq : List Char → Option (List Char)
  | [] => none
  | c :: rest =>
    match lastVeq rest with
    | some r => some r
    | none =>
      if ['v', '='].isPrefixOf (c :: rest) then take11 ((c :: rest).drop 2) else none

/-- The capture of `re.search(r"(?:youtube\.com/watch\?.*v=)([a-zA-Z0-9_-]{11})", url)`:
at the leftmost `youtube.com/watch?`, the greedy `.*` selects the rightmost
`v=` with an 11-character id after it (if the leftmost occurrence admits none,
no later one can, since any later match would be visible from the first). -/
def searchWatch : List Char → Option (List Char)
  | [] => none
  | c :: rest =>
    if ("youtube.com/watch?".data).isPrefixOf (c :: rest) then
      lastVeq ((c :: rest).drop "youtube.com/watch?".data.length)
    else searchWatch rest

/-- `YouTubeParser.extract_video_id` (`src/parsers/youtube_parser.py`):
the four URL patterns tried in order (watch?v=, youtu.be/, /embed/, /shorts/). -/
def extract_video_id (url : String) : Option String :=
  match searchWatch url.data with
  | some r => some ⟨r⟩
  | none =>
    match searchLit11 "youtu.be/".data url.data with
    | some r => some ⟨r⟩
    | none =>
      match searchLit11 "youtube.com/embed/".data url.data with
      | some r => some ⟨r⟩
      | none =>
        match searchLit11 "youtube.com/shorts/".data url.data with
        | some r => some ⟨r⟩
        | none => none

/-- Modelled from the spec: `YouTubeParser.extract_integration_timestamp` is
invoked by `validate_input` (`scripts/data_prep.py`, step 6) and exercised by
`tests/test_parsers.py`, but its definition is absent from the source tree.
The spec: pull the integration timestamp from the URL's `t=` query parameter,
tolerating the bare-integer and `<int>s`-suffixed forms and the parameter in
first (`?t=`) or non-first (`&t=`) position; null if absent or malformed.
This is the leftmost match of `[?&]t=(\d+)s?`. -/
def scanT : List Char → Option ℕ
  | [] => none
  | c :: rest =>
    if c = '?' || c = '&' then
      match rest with
      | 't' :: '=' :: r =>
        match r with
        | d :: _ =>
          if d.isDigit then some (digitsVal (r.takeWhile Char.isDigit))
          else scanT rest
        | [] => scanT rest
      | _ => scanT rest
    else scanT rest

/-- Modelled from the spec: see `scanT`. -/
def extract_integration_timestamp (url : String) : Option ℕ := scanT url.data

/-- Python's `lit in s` substring test. -/
def containsLit (lit : List Char) : List Char → Bool
  | [] => lit.isEmpty
  | c :: rest => lit.isPrefixOf (c :: rest) || containsLit lit rest

/-- Result triple of `classify_url`. -/
structure ClassifyRes where
  is_parseable : Bool
  url_type : String
  content_id : Option String
deriving DecidableEq

/-- The `{is_parseable: False, url_type: "empty", content_id: None}` result. -/
def emptyRes : ClassifyRes := ⟨false, "empty", none⟩

/-- Leftmost occurrence of `lit` followed by at least one class character;
captures the maximal run — `re.search(lit + "([cls]+)", url)`. -/
def searchLitPlus (lit : List Char) (cls : Char → Bool) : List Char → Option (List Char)
  | [] => none
  | c :: rest =>
    match
      (if lit.isPrefixOf (c :: rest) then
        match (c :: rest).drop lit.length with
        | d :: ds => if cls d then some (d :: ds.takeWhile cls) else none
        | [] => none
      else none) with
    | some r => some r
    | none => searchLitPlus lit cls rest

/-- Rightmost `/video/` followed by at least one digit (greedy `.*` of the
TikTok pattern); captures the maximal digit run. -/
def lastVideo : List Char → Option (List Char)
  | [] => none
  | c :: rest =>
    match lastVideo rest with
    | some r => some r
    | none =>
      if ("/video/".data).isPrefixOf (c :: rest) then
        match (c :: rest).drop 7 with
        | d :: ds => if d.isDigit then some (d :: ds.takeWhile Char.isDigit) else none
        | [] => none
      else none

/-- The capture of `re.search(r"tiktok\.com/.*/video/(\d+)", url)`:
leftmost `tiktok.com/`, then the greedy `.*` selects the rightmost
`/video/<digits>` after it. -/
def searchTiktok : List Char → Option (List Char)
  | [] => none
  | c :: rest =>
    if ("tiktok.com/".data).isPrefixOf (c :: rest) then
      lastVideo ((c :: rest).drop "tiktok.com/".data.length)
    else searchTiktok rest

/-- `re.search(r"\.(mp4|mov|avi|mkv)$", url, re.IGNORECASE)` as a Boolean. -/
def endsWithVideoExt (u : String) : Bool :=
  let l := u.data.map Char.toLower
  (".mp4".data).isSuffixOf l || (".mov".data).isSuffixOf l
    || (".avi".data).isSuffixOf l || (".mkv".data).isSuffixOf l

/-- `classify_url` (`scripts/data_prep.py`).  The `fmt` argument is accepted
and ignored, as in the source.  Branch order follows the source: empty/NaN,
YouTube substring, Instagram reel regex, any other `instagram.com` URL,
TikTok regex, Drive, file extension, non-http, other. -/
def classify_url (url : PyVal) (fmt : String) : ClassifyRes :=
  match url with
  | .vStr s =>
    if s = "" then emptyRes
    else
      let u := pyStrip s
      if u = "" || pyLower u = "nan" then emptyRes
      else if containsLit "youtu".data u.data then
        let vid := extract_video_id u
        ⟨vid.isSome, "youtube", vid⟩
      else
        match searchLitPlus "instagram.com/reel/".data idClass u.data with
        | some cid => ⟨true, "instagram_reel", some ⟨cid⟩⟩
        | none =>
          if containsLit "instagram.com".data u.data then ⟨true, "instagram_story", none⟩
          else
            match searchTiktok u.data with
            | some cid => ⟨true, "tiktok", some ⟨cid⟩⟩
            | none =>
              if containsLit "drive.google.com".data u.data then ⟨false, "drive_link", none⟩
              else if endsWithVideoExt u then ⟨false, "local_file", none⟩
              else if !(("http".data).isPrefixOf u.data) then ⟨false, "local_file", none⟩
              else ⟨false, "other", none⟩
  | _ => emptyRes

/-- One input row of the integrations table: the required columns plus the
configured numeric columns (the `NUMERIC_COLUMNS` cells, in a fixed order). -/
structure RawRow where
  date : PyVal
  name : PyVal
  fmt : PyVal
  adlink : PyVal
  numerics : List PyVal
deriving DecidableEq

/-- One row after `validate_input`'s per-row transformations (steps 2-6). -/
structure CleanRow where
  date : String
  name : String
  fmt : String
  adlink : String
  numerics : List PFloat
  is_parseable : Bool
  url_type : String
  content_id : Option String
  integration_timestamp : Option ℕ
deriving DecidableEq

/-- `SUPPORTED_FORMATS` (`scripts/data_prep.py`). -/
def supportedFormats : List String := ["youtube", "reel", "story", "tiktok"]

/-- Steps 2-6 of `validate_input` on one row: strip the key string columns and
lowercase Format, convert the date, parse the numeric columns, classify the
URL, and extract the integration timestamp for rows classified `youtube`. -/
def cleanRow (r : RawRow) : CleanRow :=
  let name := pyStrip (pyStr r.name)
  let fm := pyLower (pyStrip (pyStr r.fmt))
  let adlink := pyStrip (pyStr r.adlink)
  let date := convert_excel_date r.date
  let nums := r.numerics.map parse_european_number
  let c := classify_url (.vStr adlink) fm
  let ts :=
    if c.url_type = "youtube" then extract_integration_timestamp adlink else none
  ⟨date, name, fm, adlink, nums, c.is_parseable, c.url_type, c.content_id, ts⟩

/-- The rows after per-row cleaning. -/
def cleanedRows (rows : List RawRow) : List CleanRow := rows.map cleanRow

/-- Step 7: the rows whose Format is in the supported set. -/
def keptRows (rows : List RawRow) : List CleanRow :=
  (cleanedRows rows).filter fun r => supportedFormats.contains r.fmt

/-- The rows dropped by step 7. -/
def unknownRows (rows : List RawRow) : List CleanRow :=
  (cleanedRows rows).filter fun r => !(supportedFormats.contains r.fmt)

/-- The `(Name, Ad link)` deduplication key of step 8. -/
def keyOf (r : CleanRow) : String × String := (r.name, r.adlink)

/-- `drop_duplicates(subset=["Name", "Ad link"], keep="first")`: keep a row
iff its key has not been seen earlier. -/
def dedupGo (seen : List (String × String)) : List CleanRow → List CleanRow
  | [] => []
  | r :: rs =>
    if keyOf r ∈ seen then dedupGo seen rs
    else r :: dedupGo (keyOf r :: seen) rs

/-- Step 8 deduplication. -/
def dedupKeep (l : List CleanRow) : List CleanRow := dedupGo [] l

/-- First-seen order of distinct Format values, for the unsupported-format
warning (`unknown["Format"].unique().tolist()`). -/
def seenFmts (acc : List String) : List CleanRow → List String
  | [] => acc.reverse
  | r :: rs => if r.fmt ∈ acc then seenFmts acc rs else seenFmts (r.fmt :: acc) rs

/-- Python `repr` of a list of strings, as an f-string renders it. -/
def pyListRepr (l : List String) : String :=
  "[" ++ String.intercalate ", " (l.map fun s => "'" ++ s ++ "'") ++ "]"

/-- The summary warning lines (final block of `validate_input`). -/
def summaryWarnings (l : List CleanRow) : List String :=
  ("Summary: " ++ toString l.length ++ " unique rows, "
      ++ toString (l.countP fun r => r.is_parseable) ++ " parseable URLs")
    :: supportedFormats.map fun f =>
      "  " ++ f ++ ": " ++ toString ((l.filter fun r => r.fmt = f).length)
        ++ " total, "
        ++ toString ((l.filter fun r => r.fmt = f).countP fun r => r.is_parseable)
        ++ " parseable"

/-- `validate_input` (`scripts/data_prep.py`) at the level of the table's
rows: per-row cleaning, the unsupported-format filter with its warning, the
`(Name, Ad link)` deduplication with its warning, and the summary warnings.
The step-1 schema check concerns the column set of the frame, which the row
representation fixes by construction. -/
def validate_input (rows : List RawRow) : List CleanRow × List String :=
  let kept := keptRows rows
  let unknown := unknownRows rows
  let w1 : List String :=
    if unknown.length = 0 then []
    else ["Removed " ++ toString unknown.length
      ++ " rows with unsupported formats: " ++ pyListRepr (seenFmts [] unknown)]
  let deduped := dedupKeep kept
  let ndup := kept.length - deduped.length
  let w2 : List String :=
    if ndup = 0 then []
    else ["Removed " ++ toString ndup ++ " duplicate rows (by Name + Ad link)"]
  (deduped, w1 ++ w2 ++ summaryWarnings deduped)

/-- The DataFrame cells of a cleaned row, as seen by a second `validate_input`
pass: the date and key string columns hold strings, the numeric columns hold
floats. -/
def toRaw (c : CleanRow) : RawRow :=
  ⟨.vStr c.date, .vStr c.name, .vStr c.fmt, .vStr c.adlink,
    c.numerics.map PyVal.vFloat⟩

/-- `_safe_divide` (`src/analysis/merge_and_calculate.py`): `None` for a
null/NaN operand or a zero denominator, else the quotient.  The quotient of
finite operands is finite in the exact model (`None` is `Option.none`). -/
def safe_divide (numerator denominator : Option PFloat) : Option PFloat :=
  match denominator with
  | none => none
  | some .nan => none
  | some (.num d) =>
    match numerator with
    | none => none
    | some .nan => none
    | some (.num n) => if d = 0 then none else some (.num (n / d))

/-- The `has_purchases` lambda of `calculate_metrics`
(`src/analysis/merge_and_calculate.py`):
`bool(v and not (isinstance(v, float) and math.isnan(v)) and v > 0)`.
A null or zero value is falsy; NaN is truthy but fails the non-NaN test. -/
def has_purchases (v : Option PFloat) : Bool :=
  match v with
  | none => false
  | some .nan => false
  | some (.num q) => if q = 0 then false else decide (0 < q)

/-- The spec's deduplication scenario: two rows sharing name "x" and ad link
"y", plus one distinct row. -/
def dupScenarioRows : List RawRow :=
  [⟨.vStr "2025-01-01", .vStr "x", .vStr "story", .vStr "y", []⟩,
    ⟨.vStr "2025-01-02", .vStr "x", .vStr "story", .vStr "y", []⟩,
    ⟨.vStr "2025-01-03", .vStr "z", .vStr "story", .vStr "w", []⟩]

/-! ### Helper lemmas -/

/-- A list without the `t=` marker yields no timestamp. -/
theorem scanT_none (l : List Char) (h : ¬ (['t', '='] <:+: l)) : scanT l = none := by
  induction l with
  | nil => rfl
  | cons c rest ih =>
    have hrest : ¬ (['t', '='] <:+: rest) := fun hin =>
      h (hin.trans (List.suffix_cons c rest).isInfix)
    simp only [scanT]
    split
    · split
      · exact absurd ⟨[c], _, rfl⟩ h
      · exact ih hrest
    · exact ih hrest

/-- An element surviving at the head of `dropWhile p` fails `p`. -/
theorem dropWhile_head?_not (p : Char → Bool) (l : List Char) {a : Char}
    (h : (l.dropWhile p).head? = some a) : p a = false := by
  induction l with
  | nil => simp at h
  | cons b l ih =>
    rw [List.dropWhile_cons] at h
    split at h
    · exact ih h
    · next hb =>
      simp only [List.head?_cons, Option.some.injEq] at h
      subst h
      exact Bool.not_eq_true _ ▸ by simpa using hb

/-- `dropWhile` leaves a list whose head fails `p` unchanged. -/
theorem dropWhile_eq_self_head? (p : Char → Bool) (l : List Char)
    (h : ∀ a, l.head? = some a → p a = false) : l.dropWhile p = l := by
  cases l with
  | nil => rfl
  | cons b t => exact List.dropWhile_cons_of_neg (by simp [h b rfl])

/-- `dropWhile` is idempotent. -/
theorem dropWhile_idem (p : Char → Bool) (l : List Char) :
    (l.dropWhile p).dropWhile p = l.dropWhile p :=
  dropWhile_eq_self_head? _ _ fun _ h => dropWhile_head?_not p l h

/-- A non-empty suffix has the same last element. -/
theorem suffix_getLast? {l s : List Char} (h : s <:+ l) (hne : s ≠ []) :
    s.getLast? = l.getLast? := by
  obtain ⟨pre, rfl⟩ := h
  exact (List.getLast?_append_of_ne_nil pre hne).symm

/-- Stripping is idempotent. -/
theorem stripL_idem (l : List Char) : stripL (stripL l) = stripL l := by
  unfold stripL
  have h1 : (((l.dropWhile isSp).reverse.dropWhile isSp).reverse).dropWhile isSp
      = ((l.dropWhile isSp).reverse.dropWhile isSp).reverse := by
    apply dropWhile_eq_self_head?
    intro x hx
    rw [List.head?_reverse] at hx
    have hne : (l.dropWhile isSp).reverse.dropWhile isSp ≠ [] := by
      intro h0
      rw [h0] at hx
      simp at hx
    rw [suffix_getLast? (List.dropWhile_suffix isSp) hne, List.getLast?_reverse] at hx
    exact dropWhile_head?_not isSp l hx
  rw [h1, List.reverse_reverse, dropWhile_idem]

/-- `str.strip()` is idempotent. -/
theorem pyStrip_idem (s : String) : pyStrip (pyStrip s) = pyStrip s :=
  congrArg String.mk (stripL_idem s.data)

/-- All the character facts about decimal digit characters the date proofs
need, in one bundle. -/
theorem digitChar_spec (k : ℕ) :
    (digitChar k).isDigit = true ∧ (digitChar k).toNat = 48 + k % 10
    ∧ isSp (digitChar k) = false ∧ digitChar k ≠ '/' ∧ digitChar k ≠ '-'
    ∧ digitChar k ≠ ',' ∧ digitChar k ≠ '.' ∧ digitChar k ≠ '+'
    ∧ digitChar k ≠ 'e' ∧ digitChar k ≠ 'E' := by
  have h : k % 10 < 10 := Nat.mod_lt _ (by norm_num)
  unfold digitChar
  generalize k % 10 = m at h ⊢
  interval_cases m <;> exact ⟨by decide, by decide, by decide, by decide, by decide,
    by decide, by decide, by decide, by decide, by decide⟩

/-- `digitChar` only depends on the last decimal digit. -/
theorem digitChar_congr {a b : ℕ} (h : a % 10 = b % 10) : digitChar a = digitChar b := by
  unfold digitChar
  rw [h]

/-- `splitCh` never returns an empty chunk list. -/
theorem splitCh_ne_nil (sep : Char) (l : List Char) : splitCh sep l ≠ [] := by
  induction l with
  | nil => simp [splitCh]
  | cons c cs ih =>
    simp only [splitCh]
    split
    · next heq => exact absurd heq ih
    · split <;> simp

/-- Splitting a list free of the separator yields the single chunk. -/
theorem splitCh_not_mem {sep : Char} {l : List Char} (h : sep ∉ l) :
    splitCh sep l = [l] := by
  induction l with
  | nil => rfl
  | cons c cs ih =>
    have hc : c ≠ sep := fun hc => h (hc ▸ List.mem_cons_self c cs)
    have hcs : sep ∉ cs := fun hm => h (List.mem_cons_of_mem c hm)
    simp only [splitCh, ih hcs]
    rw [if_neg hc]

/-- Splitting peels off a separator-free prefix as the first chunk. -/
theorem splitCh_append {sep : Char} {a : List Char} (r : List Char) (h : sep ∉ a) :
    splitCh sep (a ++ sep :: r) = a :: splitCh sep r := by
  induction a with
  | nil =>
    obtain ⟨x, xs, heq⟩ : ∃ x xs, splitCh sep r = x :: xs := by
      match h' : splitCh sep r with
      | [] => exact absurd h' (splitCh_ne_nil sep r)
      | x :: xs => exact ⟨x, xs, rfl⟩
    simp [splitCh, heq]
  | cons c cs ih =>
    have hc : c ≠ sep := fun hc => h (hc ▸ List.mem_cons_self c cs)
    have hcs : sep ∉ cs := fun hm => h (List.mem_cons_of_mem c hm)
    simp only [List.cons_append, splitCh, List.append_eq, ih hcs]
    rw [if_neg hc]

/-- Every character of a rendered ISO date is a digit or the dash. -/
theorem mem_fmtISO {c : Char} {dd : DateYMD} (h : c ∈ (fmtISO dd).data) :
    (∃ k, c = digitChar k) ∨ c = '-' := by
  have h' : c ∈ pad4 dd.y ++ '-' :: (pad2 dd.m ++ '-' :: pad2 dd.d) := h
  rcases List.mem_append.mp h' with h4 | h4
  · simp only [pad4, List.mem_cons, List.not_mem_nil, or_false] at h4
    rcases h4 with rfl | rfl | rfl | rfl <;> exact Or.inl ⟨_, rfl⟩
  · rcases List.mem_cons.mp h4 with rfl | h4
    · exact Or.inr rfl
    · rcases List.mem_append.mp h4 with h2 | h2
      · simp only [pad2, List.mem_cons, List.not_mem_nil, or_false] at h2
        rcases h2 with rfl | rfl <;> exact Or.inl ⟨_, rfl⟩
      · rcases List.mem_cons.mp h2 with rfl | h2
        · exact Or.inr rfl
        · simp only [pad2, List.mem_cons, List.not_mem_nil, or_false] at h2
          rcases h2 with rfl | rfl <;> exact Or.inl ⟨_, rfl⟩

/-- The slash never occurs in a rendered ISO date. -/
theorem slash_not_mem_fmt (dd : DateYMD) : '/' ∉ (fmtISO dd).data := by
  intro h
  rcases mem_fmtISO h with ⟨k, hk⟩ | hk
  · exact (digitChar_spec k).2.2.2.1 hk.symm
  · exact absurd hk (by decide)

/-- The dash never occurs in the digit blocks of a date rendering. -/
theorem dash_not_mem_pad4 (y : ℕ) : '-' ∉ pad4 y := by
  intro h
  simp only [pad4, List.mem_cons, List.not_mem_nil, or_false] at h
  rcases h with h | h | h | h <;> exact (digitChar_spec _).2.2.2.2.1 h.symm

/-- The dash never occurs in a two-digit block. -/
theorem dash_not_mem_pad2 (m : ℕ) : '-' ∉ pad2 m := by
  intro h
  simp only [pad2, List.mem_cons, List.not_mem_nil, or_false] at h
  rcases h with h | h <;> exact (digitChar_spec _).2.2.2.2.1 h.symm

/-- Splitting a rendered ISO date on the dash recovers its three blocks. -/
theorem splitCh_fmt (dd : DateYMD) :
    splitCh '-' (fmtISO dd).data = [pad4 dd.y, pad2 dd.m, pad2 dd.d] := by
  show splitCh '-' (pad4 dd.y ++ '-' :: (pad2 dd.m ++ '-' :: pad2 dd.d)) = _
  rw [splitCh_append _ (dash_not_mem_pad4 dd.y),
    splitCh_append _ (dash_not_mem_pad2 dd.m),
    splitCh_not_mem (dash_not_mem_pad2 dd.d)]

/-- The numeric value of the four-digit block. -/
theorem digitsVal_pad4 (y : ℕ) : digitsVal (pad4 y) = y % 10000 := by
  simp only [digitsVal, pad4, List.foldl_cons, List.foldl_nil,
    (digitChar_spec (y / 1000)).2.1, (digitChar_spec (y / 100)).2.1,
    (digitChar_spec (y / 10)).2.1, (digitChar_spec y).2.1]
  omega

/-- The numeric value of a two-digit block. -/
theorem digitsVal_pad2 (m : ℕ) : digitsVal (pad2 m) = m % 100 := by
  simp only [digitsVal, pad2, List.foldl_cons, List.foldl_nil,
    (digitChar_spec (m / 10)).2.1, (digitChar_spec m).2.1]
  omega

/-- The digit blocks pass the all-digits test. -/
theorem pad4_all_digit (y : ℕ) : (pad4 y).all Char.isDigit = true := by
  simp [pad4, (digitChar_spec _).1]

/-- The two-digit blocks pass the all-digits test. -/
theorem pad2_all_digit (m : ℕ) : (pad2 m).all Char.isDigit = true := by
  simp [pad2, (digitChar_spec _).1]

/-- `%Y` on a rendered four-digit block yields the year mod 10000. -/
theorem field4_pad4 (y : ℕ) : field4 (pad4 y) = some (y % 10000) := by
  have hlen : (pad4 y).length = 4 := rfl
  simp [field4, pad4_all_digit, digitsVal_pad4, hlen]

/-- `%m`/`%d` on a rendered two-digit block: either it rejects, or it yields
the value mod 100. -/
theorem field2_pad2 (hi m : ℕ) :
    field2 hi (pad2 m) = none ∨ field2 hi (pad2 m) = some (m % 100) := by
  unfold field2
  split
  · exact Or.inr (by rw [digitsVal_pad2])
  · exact Or.inl rfl

/-- Re-parsing a rendered ISO date either fails or returns the date with its
components reduced mod the block sizes. -/
theorem parseISO_fmt (dd : DateYMD) :
    parseISO (fmtISO dd).data = none
    ∨ parseISO (fmtISO dd).data = some ⟨dd.y % 10000, dd.m % 100, dd.d % 100⟩ := by
  unfold parseISO
  rw [splitCh_fmt]
  simp only [field4_pad4, Option.some_bind]
  rcases field2_pad2 12 dd.m with h | h
  · rw [h]
    exact Or.inl rfl
  · rw [h]
    simp only [Option.some_bind]
    rcases field2_pad2 31 dd.d with h' | h'
    · rw [h']
      exact Or.inl rfl
    · rw [h']
      simp only [Option.some_bind]
      unfold mkDate
      split
      · exact Or.inr rfl
      · exact Or.inl rfl

/-- The `%d/%m/%Y` parse fails on a rendered ISO date (no slash). -/
theorem parseDMY_fmt (dd : DateYMD) : parseDMY (fmtISO dd).data = none := by
  unfold parseDMY
  rw [splitCh_not_mem (slash_not_mem_fmt dd)]

/-- The `%m/%d/%Y` parse fails on a rendered ISO date (no slash). -/
theorem parseMDY_fmt (dd : DateYMD) : parseMDY (fmtISO dd).data = none := by
  unfold parseMDY
  rw [splitCh_not_mem (slash_not_mem_fmt dd)]

/-- The comma-to-dot replacement leaves a rendered ISO date unchanged. -/
theorem map_commaDot_fmt (dd : DateYMD) :
    (fmtISO dd).data.map commaDot = (fmtISO dd).data := by
  have h : ∀ c ∈ (fmtISO dd).data, commaDot c = c := by
    intro c hc
    rcases mem_fmtISO hc with ⟨k, rfl⟩ | rfl
    · exact if_neg fun h => (digitChar_spec k).2.2.2.2.2.1 h
    · rfl
  rw [List.map_congr_left h]
  simp

/-- `float()` fails on a rendered ISO date. -/
theorem pyFloatQ_fmt (dd : DateYMD) :
    pyFloatQ ((fmtISO dd).data.map commaDot) = none := by
  rw [map_commaDot_fmt]
  have hE : (fmtISO dd).data.map eLow = (fmtISO dd).data := by
    have h : ∀ c ∈ (fmtISO dd).data, eLow c = c := by
      intro c hc
      rcases mem_fmtISO hc with ⟨k, rfl⟩ | rfl
      · exact if_neg fun h => (digitChar_spec k).2.2.2.2.2.2.2.2.2 h
      · rfl
    rw [List.map_congr_left h]
    simp
  have he_not : 'e' ∉ (fmtISO dd).data := by
    intro h
    rcases mem_fmtISO h with ⟨k, hk⟩ | hk
    · exact (digitChar_spec k).2.2.2.2.2.2.2.2.1 hk.symm
    · exact absurd hk (by decide)
  have hdot_not : '.' ∉ (fmtISO dd).data := by
    intro h
    rcases mem_fmtISO h with ⟨k, hk⟩ | hk
    · exact (digitChar_spec k).2.2.2.2.2.2.1 hk.symm
    · exact absurd hk (by decide)
  have hdash : '-' ∈ (fmtISO dd).data :=
    List.mem_append_right _ (List.mem_cons_self _ _)
  have hall : (fmtISO dd).data.all Char.isDigit = false := by
    rw [List.all_eq_false]
    exact ⟨'-', hdash, by decide⟩
  have hmant : mantQ (fmtISO dd).data = none := by
    unfold mantQ
    rw [splitCh_not_mem hdot_not]
    simp [hall]
  have huns : unsignedQ (fmtISO dd).data = none := by
    unfold unsignedQ
    rw [hE, splitCh_not_mem he_not]
    exact hmant
  have hco : (fmtISO dd).data
      = digitChar (dd.y / 1000)
        :: ([digitChar (dd.y / 100), digitChar (dd.y / 10), digitChar dd.y]
          ++ '-' :: (pad2 dd.m ++ '-' :: pad2 dd.d)) := rfl
  rw [hco]
  simp only [pyFloatQ]
  rw [if_neg (fun h => (digitChar_spec (dd.y / 1000)).2.2.2.2.2.2.2.1 h),
    if_neg (fun h => (digitChar_spec (dd.y / 1000)).2.2.2.2.1 h)]
  exact huns

/-- The ISO rendering only depends on the components mod the block sizes. -/
theorem fmtISO_mod (dd : DateYMD) :
    fmtISO ⟨dd.y % 10000, dd.m % 100, dd.d % 100⟩ = fmtISO dd := by
  unfold fmtISO pad4 pad2
  rw [digitChar_congr (show dd.y % 10000 / 1000 % 10 = dd.y / 1000 % 10 by omega),
    digitChar_congr (show dd.y % 10000 / 100 % 10 = dd.y / 100 % 10 by omega),
    digitChar_congr (show dd.y % 10000 / 10 % 10 = dd.y / 10 % 10 by omega),
    digitChar_congr (show dd.y % 10000 % 10 = dd.y % 10 by omega),
    digitChar_congr (show dd.m % 100 / 10 % 10 = dd.m / 10 % 10 by omega),
    digitChar_congr (show dd.m % 100 % 10 = dd.m % 10 by omega),
    digitChar_congr (show dd.d % 100 / 10 % 10 = dd.d / 10 % 10 by omega),
    digitChar_congr (show dd.d % 100 % 10 = dd.d % 10 by omega)]

/-- A rendered ISO date is already stripped. -/
theorem stripL_fmt (dd : DateYMD) : stripL (fmtISO dd).data = (fmtISO dd).data := by
  unfold stripL
  have hhead : ∀ a, (fmtISO dd).data.head? = some a → isSp a = false := by
    intro a ha
    have h0 : (fmtISO dd).data.head? = some (digitChar (dd.y / 1000)) := rfl
    rw [h0] at ha
    obtain rfl := Option.some.inj ha
    exact (digitChar_spec _).2.2.1
  rw [dropWhile_eq_self_head? _ _ hhead]
  have hsplit : (fmtISO dd).data
      = (pad4 dd.y ++ '-' :: pad2 dd.m ++ ['-', digitChar (dd.d / 10)])
        ++ [digitChar dd.d] := by
    show pad4 dd.y ++ '-' :: (pad2 dd.m ++ '-' :: pad2 dd.d) = _
    simp [pad2]
  have hlast : ∀ a, (fmtISO dd).data.reverse.head? = some a → isSp a = false := by
    intro a ha
    rw [List.head?_reverse, hsplit, List.getLast?_concat] at ha
    obtain rfl := Option.some.inj ha
    exact (digitChar_spec _).2.2.1
  rw [dropWhile_eq_self_head? _ _ hlast, List.reverse_reverse]

/-- The date chain is the identity on its own ISO output. -/
theorem convDateStr_fmt (dd : DateYMD) : convDateStr (fmtISO dd) = fmtISO dd := by
  unfold convDateStr
  rw [parseDMY_fmt]
  rcases parseISO_fmt dd with h | h
  · rw [h, parseMDY_fmt, pyFloatQ_fmt]
  · rw [h]
    exact fmtISO_mod dd

/-- The date chain either renders an ISO date or returns its input. -/
theorem convDateStr_cases (s : String) :
    (∃ dd, convDateStr s = fmtISO dd) ∨ convDateStr s = s := by
  unfold convDateStr
  rcases h1 : parseDMY s.data with _ | d1
  · rcases h2 : parseISO s.data with _ | d2
    · rcases h3 : parseMDY s.data with _ | d3
      · rcases h4 : pyFloatQ (s.data.map commaDot) with _ | q
        · exact Or.inr rfl
        · simp only []
          split
          · exact Or.inl ⟨_, rfl⟩
          · exact Or.inr rfl
      · exact Or.inl ⟨_, rfl⟩
    · exact Or.inl ⟨_, rfl⟩
  · exact Or.inl ⟨_, rfl⟩

/-- The date chain is idempotent (through the re-stringify-and-strip of a
second pipeline pass). -/
theorem convDate_idem {u : String} (hu : pyStrip u = u) :
    convDateStr (pyStrip (convDateStr u)) = convDateStr u := by
  rcases convDateStr_cases u with ⟨dd, h⟩ | h
  · rw [h]
    have hs : pyStrip (fmtISO dd) = fmtISO dd := congrArg String.mk (stripL_fmt dd)
    rw [hs, convDateStr_fmt]
  · rw [h, hu, h]

/-- `convert_excel_date` is idempotent on any cell. -/
theorem convert_excel_date_idem (v : PyVal) :
    convert_excel_date (.vStr (convert_excel_date v)) = convert_excel_date v :=
  convDate_idem (pyStrip_idem (pyStr v))

/-! ### Claims -/

/-- C1: the integration-timestamp extractor returns the integer seconds of the
`t=` query parameter, in bare (`t=331`, `t=27` first-position) and
`s`-suffixed (`t=322s`) forms, returns null when it is absent, and is invoked
by the row cleaner exactly for rows classified `youtube`; in particular the
spec's example URL yields 331. -/
theorem claim_C1_integration_timestamp :
    extract_integration_timestamp "https://youtu.be/uTc3U2Cqen4?si=x&t=331" = some 331
    ∧ extract_integration_timestamp "https://www.youtube.com/watch?v=o-9aumQSTXA&t=322s"
        = some 322
    ∧ extract_integration_timestamp "https://youtu.be/dBgqgkC1kac?t=27" = some 27
    ∧ extract_integration_timestamp "https://youtu.be/dQw4w9WgXcQ" = none
    ∧ (∀ url : String, ¬ (['t', '='] <:+: url.data) →
        extract_integration_timestamp url = none)
    ∧ (∀ r : RawRow, (cleanRow r).integration_timestamp =
        if (cleanRow r).url_type = "youtube"
        then extract_integration_timestamp (cleanRow r).adlink else none) :=
  ⟨by decide, by decide, by decide, by decide, fun _ h => scanT_none _ h,
    fun _ => rfl⟩

/-- C1 witness: a URL without `t=` has no timestamp. -/
theorem claim_C1_witness :
    ¬ (['t', '='] <:+: "https://vimeo.com/123".data)
    ∧ extract_integration_timestamp "https://vimeo.com/123" = none :=
  ⟨by decide, claim_C1_integration_timestamp.2.2.2.2.1 "https://vimeo.com/123" (by decide)⟩

/-- C2 counter-evidence: the code sends every non-reel `instagram.com` URL —
a `/p/` post, a `/stories/` URL and a profile page alike — to
`{is_parseable: true, url_type: "instagram_story", content_id: null}`,
while the claim (and `tests/test_parsers.py`) expects `instagram_post` with a
captured id, a non-parseable `instagram_story`, and a non-parseable
`instagram_other` respectively. -/
theorem claim_C2_instagram_classification :
    classify_url (.vStr "https://www.instagram.com/p/ABC123def_/") "reel"
        = ⟨true, "instagram_story", none⟩
    ∧ classify_url (.vStr "https://www.instagram.com/stories/someblogger/12345/") "story"
        = ⟨true, "instagram_story", none⟩
    ∧ classify_url (.vStr "https://www.instagram.com/someblogger/") "story"
        = ⟨true, "instagram_story", none⟩ := by
  refine ⟨by decide, by decide, by decide⟩

/-- C4: the safe divide returns null whenever the denominator is null, NaN or
zero or the numerator is null or NaN; otherwise it returns the exact quotient
(finite by construction — never NaN, never infinite in the exact model);
with the spec's examples. -/
theorem claim_C4_safe_divide :
    (∀ a b : Option PFloat,
        b = none ∨ b = some .nan ∨ b = some (.num 0) ∨ a = none ∨ a = some .nan →
        safe_divide a b = none)
    ∧ (∀ x y : ℚ, y ≠ 0 →
        safe_divide (some (.num x)) (some (.num y)) = some (.num (x / y)))
    ∧ (∀ a b : Option PFloat,
        safe_divide a b = none ∨ ∃ q : ℚ, safe_divide a b = some (.num q))
    ∧ safe_divide (some (.num 5000)) (some (.num 0)) = none
    ∧ safe_divide (some .nan) (some (.num 10)) = none
    ∧ safe_divide (some (.num 10)) (some (.num 2)) = some (.num 5) := by
  refine ⟨?_, ?_, ?_, by decide, by decide, by simp [safe_divide]; norm_num⟩
  · rintro a b (rfl | rfl | rfl | rfl | rfl)
    · rfl
    · rfl
    · rcases a with _ | (_ | n) <;> simp [safe_divide]
    · rcases b with _ | (_ | d) <;> rfl
    · rcases b with _ | (_ | d) <;> rfl
  · intro x y hy
    simp [safe_divide, hy]
  · intro a b
    rcases b with _ | (_ | d)
    · exact Or.inl rfl
    · exact Or.inl rfl
    · rcases a with _ | (_ | n)
      · exact Or.inl rfl
      · exact Or.inl rfl
      · by_cases hd : d = 0
        · exact Or.inl (by simp [safe_divide, hd])
        · exact Or.inr ⟨n / d, by simp [safe_divide, hd]⟩

/-- C4 witness: a null denominator and a plain quotient, via the theorem. -/
theorem claim_C4_witness :
    safe_divide (some (.num 7)) none = none
    ∧ safe_divide (some (.num 9)) (some (.num 4)) = some (.num (9 / 4)) :=
  ⟨claim_C4_safe_divide.1 (some (.num 7)) none (Or.inl rfl),
    claim_C4_safe_divide.2.1 9 4 (by norm_num)⟩

/-- C5: `has_purchases` is true iff the purchase-total value is present,
non-NaN and strictly positive; with the spec's examples (0 → false,
3 → true, NaN → false). -/
theorem claim_C5_has_purchases :
    (∀ v : Option PFloat,
        has_purchases v = true ↔ ∃ q : ℚ, v = some (.num q) ∧ 0 < q)
    ∧ has_purchases (some (.num 0)) = false
    ∧ has_purchases (some (.num 3)) = true
    ∧ has_purchases (some .nan) = false
    ∧ has_purchases none = false := by
  refine ⟨?_, by decide, by decide, by decide, by decide⟩
  intro v
  rcases v with _ | (_ | q)
  · simp [has_purchases]
  · simp [has_purchases]
  · constructor
    · intro h
      refine ⟨q, rfl, ?_⟩
      by_cases hq : q = 0
      · simp [has_purchases, hq] at h
      · simpa [has_purchases, hq] using h
    · rintro ⟨q', hq', hpos⟩
      obtain rfl : q = q' := by simpa using hq'
      have : q ≠ 0 := ne_of_gt hpos
      simp [has_purchases, this, hpos]

/-- The numeric normalizer only depends on the stripped string. -/
theorem parse_euro_strip {s₁ s₂ : String} (h : pyStrip s₁ = pyStrip s₂) :
    parse_european_number (.vStr s₁) = parse_european_number (.vStr s₂) := by
  simp only [parse_european_number, h]

/-- Leading whitespace is stripped before parsing. -/
theorem pyStrip_ws (s : String) : pyStrip ("  " ++ s) = pyStrip s := by
  show String.mk (stripL ("  " ++ s).data) = _
  have hdata : ("  " ++ s).data = ' ' :: ' ' :: s.data := rfl
  rw [hdata]
  unfold stripL
  rw [List.dropWhile_cons_of_pos (by decide), List.dropWhile_cons_of_pos (by decide)]
  rfl

/-- C6: the numeric normalizer is total: empty and `nan` strings (after
stripping, case-insensitively) map to NaN, commas act as decimal dots, parse
failure maps to NaN, every input maps to NaN or a number, and the spec's
examples hold ("" → NaN, "nan" → NaN, "2,6" → 2.6, "11000" → 11000.0). -/
theorem claim_C6_numeric_normalizer :
    parse_european_number (.vStr "") = .nan
    ∧ parse_european_number (.vStr "nan") = .nan
    ∧ parse_european_number (.vStr "2,6") = .num (13 / 5)
    ∧ parse_european_number (.vStr "11000") = .num 11000
    ∧ parse_european_number .vNone = .nan
    ∧ parse_european_number (.vFloat .nan) = .nan
    ∧ (∀ s : String, pyLower (pyStrip s) = "nan" →
        parse_european_number (.vStr s) = .nan)
    ∧ (∀ s : String, pyFloatQ ((pyStrip s).data.map commaDot) = none →
        parse_european_number (.vStr s) = .nan)
    ∧ (∀ s : String,
        parse_european_number (.vStr ("  " ++ s)) = parse_european_number (.vStr s))
    ∧ (∀ v : PyVal,
        parse_european_number v = .nan ∨ ∃ q, parse_european_number v = .num q) := by
  refine ⟨rfl, rfl, ?_, ?_, rfl, rfl, ?_, ?_, ?_, ?_⟩
  · have h : parse_european_number (.vStr "2,6")
        = .num ((digitsVal ['2'] : ℚ) + (digitsVal ['6'] : ℚ) / (10 : ℚ) ^ (1 : ℕ)) :=
      rfl
    rw [h, show digitsVal ['2'] = 2 from by decide,
      show digitsVal ['6'] = 6 from by decide]
    exact congrArg PFloat.num (by push_cast; norm_num)
  · have h : parse_european_number (.vStr "11000")
        = .num ((digitsVal "11000".data : ℚ)) := rfl
    rw [h, show digitsVal "11000".data = 11000 from by decide]
    exact congrArg PFloat.num (by push_cast; norm_num)
  · intro s h
    simp [parse_european_number, h]
  · intro s h
    simp only [parse_european_number]
    split
    · rfl
    · rw [h]
  · intro s
    exact parse_euro_strip (pyStrip_ws s)
  · intro v
    cases hpe : parse_european_number v with
    | nan => exact Or.inl rfl
    | num q => exact Or.inr ⟨q, rfl⟩

/-- C6 witness: a cased-and-padded `nan` and an unparseable string, through
the theorem's general clauses. -/
theorem claim_C6_witness :
    pyLower (pyStrip " NAN ") = "nan"
    ∧ parse_european_number (.vStr " NAN ") = .nan
    ∧ pyFloatQ ((pyStrip "abc").data.map commaDot) = none
    ∧ parse_european_number (.vStr "abc") = .nan :=
  ⟨by decide, claim_C6_numeric_normalizer.2.2.2.2.2.2.1 " NAN " (by decide),
    by decide, claim_C6_numeric_normalizer.2.2.2.2.2.2.2.1 "abc" (by decide)⟩

/-- C7: the explicit date formats are tried in the order day/month/year, ISO,
month/day/year, first success winning; a string valid under both slash
readings gets the day/month/year reading, and "01/02/2025" normalizes to
"2025-02-01". -/
theorem claim_C7_date_format_order :
    (∀ (s : String) (d : DateYMD), parseDMY s.data = some d → convDateStr s = fmtISO d)
    ∧ (∀ (s : String) (d : DateYMD), parseDMY s.data = none →
        parseISO s.data = some d → convDateStr s = fmtISO d)
    ∧ (∀ (s : String) (d : DateYMD), parseDMY s.data = none → parseISO s.data = none →
        parseMDY s.data = some d → convDateStr s = fmtISO d)
    ∧ (∀ (s : String) (d₁ d₂ : DateYMD), parseDMY s.data = some d₁ →
        parseMDY s.data = some d₂ → convDateStr s = fmtISO d₁)
    ∧ convert_excel_date (.vStr "01/02/2025") = "2025-02-01" := by
  refine ⟨?_, ?_, ?_, ?_, by decide⟩
  · intro s d h
    unfold convDateStr
    rw [h]
  · intro s d h1 h2
    unfold convDateStr
    rw [h1, h2]
  · intro s d h1 h2 h3
    unfold convDateStr
    rw [h1, h2, h3]
  · intro s d₁ d₂ h1 _
    unfold convDateStr
    rw [h1]

/-- C7 witness: "01/02/2025" parses under both slash formats and the chain
returns the day/month/year reading. -/
theorem claim_C7_witness :
    parseDMY "01/02/2025".data = some ⟨2025, 2, 1⟩
    ∧ parseMDY "01/02/2025".data = some ⟨2025, 1, 2⟩
    ∧ convDateStr "01/02/2025" = fmtISO ⟨2025, 2, 1⟩ :=
  ⟨by decide, by decide,
    claim_C7_date_format_order.2.2.2.1 "01/02/2025" ⟨2025, 2, 1⟩ ⟨2025, 1, 2⟩
      (by decide) (by decide)⟩

/-- C10: `classify_url` is total at its public interface: every non-string
cell (None, any float including NaN, any int) and every string that strips to
empty or to a case-insensitive `nan` yields the empty-classification result
rather than an error. -/
theorem claim_C10_classify_total :
    (∀ f : String, classify_url .vNone f = emptyRes)
    ∧ (∀ (f : String) (x : PFloat), classify_url (.vFloat x) f = emptyRes)
    ∧ (∀ (f : String) (n : ℤ), classify_url (.vInt n) f = emptyRes)
    ∧ (∀ (f s : String), pyStrip s = "" → classify_url (.vStr s) f = emptyRes)
    ∧ (∀ (f s : String), pyLower (pyStrip s) = "nan" →
        classify_url (.vStr s) f = emptyRes) := by
  refine ⟨fun _ => rfl, fun _ _ => rfl, fun _ _ => rfl, ?_, ?_⟩
  · intro f s h
    by_cases hs : s = ""
    · simp [classify_url, hs]
    · simp [classify_url, hs, h]
  · intro f s h
    by_cases hs : s = ""
    · simp [classify_url, hs]
    · simp [classify_url, hs, h]

/-- C10 witness: a whitespace-only string and a padded mixed-case NaN,
through the theorem's general clauses. -/
theorem claim_C10_witness :
    pyStrip "   " = "" ∧ classify_url (.vStr "   ") "story" = emptyRes
    ∧ pyLower (pyStrip " NaN ") = "nan"
    ∧ classify_url (.vStr " NaN ") "reel" = emptyRes :=
  ⟨by decide, claim_C10_classify_total.2.2.2.1 "story" "   " (by decide),
    by decide, claim_C10_classify_total.2.2.2.2 "reel" " NaN " (by decide)⟩

/-- Deduplication only removes rows. -/
theorem dedupGo_sublist (seen : List (String × String)) (l : List CleanRow) :
    List.Sublist (dedupGo seen l) l := by
  induction l generalizing seen with
  | nil => exact List.Sublist.refl []
  | cons r rs ih =>
    simp only [dedupGo]
    split
    · exact (ih seen).trans (List.sublist_cons_self r rs)
    · exact (ih _).cons₂ r

/-- No surviving row carries an already-seen key. -/
theorem dedupGo_not_seen {seen : List (String × String)} {l : List CleanRow} :
    ∀ r ∈ dedupGo seen l, keyOf r ∉ seen := by
  induction l generalizing seen with
  | nil =>
    intro r hr
    simp [dedupGo] at hr
  | cons x rs ih =>
    intro r hr
    simp only [dedupGo] at hr
    split at hr
    · exact ih r hr
    · next hx =>
      rcases List.mem_cons.mp hr with rfl | hr'
      · exact hx
      · exact fun hmem => ih r hr' (List.mem_cons_of_mem _ hmem)

/-- Surviving rows have pairwise distinct keys. -/
theorem dedupGo_pairwise (seen : List (String × String)) (l : List CleanRow) :
    (dedupGo seen l).Pairwise fun a b => keyOf a ≠ keyOf b := by
  induction l generalizing seen with
  | nil => exact List.Pairwise.nil
  | cons x rs ih =>
    simp only [dedupGo]
    split
    · exact ih seen
    · refine List.Pairwise.cons ?_ (ih _)
      intro b hb heq
      exact dedupGo_not_seen b hb (heq ▸ List.mem_cons_self _ _)

/-- Deduplication preserves the first row found under each unseen key. -/
theorem dedupGo_find? (k : String × String) (seen : List (String × String))
    (l : List CleanRow) (hk : k ∉ seen) :
    (dedupGo seen l).find? (fun r => decide (keyOf r = k))
      = l.find? fun r => decide (keyOf r = k) := by
  induction l generalizing seen with
  | nil => rfl
  | cons x rs ih =>
    simp only [dedupGo]
    split
    · next hmem =>
      have hxk : decide (keyOf x = k) = false := by
        simp only [decide_eq_false_iff_not]
        rintro rfl
        exact hk hmem
      simp only [List.find?, hxk]
      exact ih seen hk
    · next hmem =>
      by_cases hxk : keyOf x = k
      · have hx : decide (keyOf x = k) = true := by simp [hxk]
        simp only [List.find?, hx]
      · have hx : decide (keyOf x = k) = false := by simp [hxk]
        simp only [List.find?, hx]
        refine ih _ ?_
        intro hmem'
        rcases List.mem_cons.mp hmem' with heq | hseen
        · exact hxk heq.symm
        · exact hk hseen

/-- Deduplication is the identity on a key-distinct list with fresh keys. -/
theorem dedupGo_eq_self {seen : List (String × String)} {l : List CleanRow}
    (h1 : ∀ r ∈ l, keyOf r ∉ seen)
    (h2 : l.Pairwise fun a b => keyOf a ≠ keyOf b) : dedupGo seen l = l := by
  induction l generalizing seen with
  | nil => rfl
  | cons x rs ih =>
    rw [List.pairwise_cons] at h2
    simp only [dedupGo]
    rw [if_neg (h1 x (List.mem_cons_self x rs))]
    have hrec : dedupGo (keyOf x :: seen) rs = rs := by
      refine ih ?_ h2.2
      intro r hr hmem
      rcases List.mem_cons.mp hmem with heq | hseen
      · exact h2.1 r hr heq.symm
      · exact h1 r (List.mem_cons_of_mem _ hr) hseen
    rw [hrec]

/-- C3: after validation no two surviving rows share the `(Name, Ad link)`
key, the first occurrence of each key in the filtered order survives, a
nonzero removal count is reported in a warning, and the spec's scenario
(two rows keyed ("x","y") plus one distinct) keeps exactly 2 rows with a
warning mentioning "1 duplicate". -/
theorem claim_C3_dedup_invariant :
    (∀ rows : List RawRow,
        ((validate_input rows).1).Pairwise fun a b => keyOf a ≠ keyOf b)
    ∧ (∀ (rows : List RawRow) (k : String × String),
        ((validate_input rows).1).find? (fun r => decide (keyOf r = k))
          = (keptRows rows).find? fun r => decide (keyOf r = k))
    ∧ (∀ rows : List RawRow,
        0 < (keptRows rows).length - ((validate_input rows).1).length →
        ("Removed "
            ++ toString ((keptRows rows).length - ((validate_input rows).1).length)
            ++ " duplicate rows (by Name + Ad link)") ∈ (validate_input rows).2)
    ∧ ((validate_input dupScenarioRows).1).length = 2
    ∧ "Removed 1 duplicate rows (by Name + Ad link)" ∈ (validate_input dupScenarioRows).2
    ∧ ("1 duplicate".data <:+: "Removed 1 duplicate rows (by Name + Ad link)".data) := by
  refine ⟨?_, ?_, ?_, by decide, by decide, by decide⟩
  · intro rows
    exact dedupGo_pairwise [] (keptRows rows)
  · intro rows k
    exact dedupGo_find? k [] (keptRows rows) (List.not_mem_nil k)
  · intro rows h
    have hne : (keptRows rows).length - (dedupKeep (keptRows rows)).length ≠ 0 :=
      Nat.pos_iff_ne_zero.mp h
    simp only [validate_input]
    rw [if_neg hne]
    exact List.mem_append_left _ (List.mem_append_right _ (List.mem_cons_self _ _))

/-- C3 witness: the scenario has a positive removal count, and the duplicate
warning (through the theorem's general clause). -/
theorem claim_C3_witness :
    0 < (keptRows dupScenarioRows).length - ((validate_input dupScenarioRows).1).length
    ∧ ("Removed "
        ++ toString
          ((keptRows dupScenarioRows).length - ((validate_input dupScenarioRows).1).length)
        ++ " duplicate rows (by Name + Ad link)") ∈ (validate_input dupScenarioRows).2 :=
  ⟨by decide, claim_C3_dedup_invariant.2.2.1 dupScenarioRows (by decide)⟩

/-- Re-parsing a numeric cell that already holds a float is the identity
(the float branch of the normalizer). -/
theorem parse_euro_refloat (x : PFloat) : parse_european_number (.vFloat x) = x := by
  cases x <;> rfl

/-- Strip-and-lowercase is the identity on the supported format names. -/
theorem pyLower_pyStrip_supported {f : String}
    (h : supportedFormats.contains f = true) : pyLower (pyStrip f) = f := by
  have hmem : f ∈ supportedFormats := by simpa using h
  simp only [supportedFormats, List.mem_cons, List.not_mem_nil, or_false] at hmem
  rcases hmem with rfl | rfl | rfl | rfl <;> decide

/-- `cleanRow` on a row whose cells are already normalized. -/
theorem cleanRow_fixed {d n f a : String} {ns : List PFloat}
    (hd : convert_excel_date (.vStr d) = d) (hn : pyStrip n = n)
    (hf : pyLower (pyStrip f) = f) (ha : pyStrip a = a) :
    cleanRow ⟨.vStr d, .vStr n, .vStr f, .vStr a, ns.map PyVal.vFloat⟩
      = ⟨d, n, f, a, ns, (classify_url (.vStr a) f).is_parseable,
          (classify_url (.vStr a) f).url_type, (classify_url (.vStr a) f).content_id,
          if (classify_url (.vStr a) f).url_type = "youtube"
          then extract_integration_timestamp a else none⟩ := by
  have hns : (ns.map PyVal.vFloat).map parse_european_number = ns := by
    rw [List.map_map]
    have hid : ∀ x ∈ ns, (parse_european_number ∘ PyVal.vFloat) x = id x := fun x _ =>
      parse_euro_refloat x
    rw [List.map_congr_left hid, List.map_id]
  simp only [cleanRow, pyStr, hd, hn, hf, ha, hns]

/-- A second cleaning pass over an already-cleaned supported-format row is
the identity. -/
theorem cleanRow_idem (r : RawRow)
    (h : supportedFormats.contains (cleanRow r).fmt = true) :
    cleanRow (toRaw (cleanRow r)) = cleanRow r :=
  cleanRow_fixed (convert_excel_date_idem r.date) (pyStrip_idem (pyStr r.name))
    (pyLower_pyStrip_supported h) (pyStrip_idem (pyStr r.adlink))

/-- C9: running the validator on its own output returns the same table: the
per-cell normalizations are idempotent, the format filter drops nothing
further, and deduplication removes nothing further. -/
theorem claim_C9_validator_idempotent :
    ∀ rows : List RawRow,
      (validate_input ((validate_input rows).1.map toRaw)).1 = (validate_input rows).1 := by
  intro rows
  have hmem : ∀ c ∈ dedupKeep (keptRows rows),
      supportedFormats.contains c.fmt = true ∧ ∃ r, c = cleanRow r := by
    intro c hc
    have hc' : c ∈ keptRows rows := (dedupGo_sublist [] (keptRows rows)).subset hc
    obtain ⟨hmemc, hcond⟩ := List.mem_filter.mp hc'
    refine ⟨hcond, ?_⟩
    obtain ⟨r, _, rfl⟩ := List.mem_map.mp hmemc
    exact ⟨r, rfl⟩
  have hclean : ((dedupKeep (keptRows rows)).map toRaw).map cleanRow
      = dedupKeep (keptRows rows) := by
    rw [List.map_map]
    have hid : ∀ c ∈ dedupKeep (keptRows rows), (cleanRow ∘ toRaw) c = id c := by
      intro c hc
      obtain ⟨hcond, r, rfl⟩ := hmem c hc
      exact cleanRow_idem r hcond
    rw [List.map_congr_left hid, List.map_id]
  show dedupKeep (keptRows ((dedupKeep (keptRows rows)).map toRaw))
      = dedupKeep (keptRows rows)
  have hkept : keptRows ((dedupKeep (keptRows rows)).map toRaw)
      = dedupKeep (keptRows rows) := by
    show (((dedupKeep (keptRows rows)).map toRaw).map cleanRow).filter
        (fun r => supportedFormats.contains r.fmt) = dedupKeep (keptRows rows)
    rw [hclean]
    exact List.filter_eq_self.mpr fun c hc => (hmem c hc).1
  rw [hkept]
  exact dedupGo_eq_self (fun r _ hmem' => absurd hmem' (List.not_mem_nil _))
    (dedupGo_pairwise [] (keptRows rows))

/-- C8 counter-evidence: `extract_video_id` has no `/live/` pattern, so the
repository's own `test_live_url` URL yields no video id and the classifier
marks it `youtube` but not parseable, against the claim (and the test). -/
theorem claim_C8_live_url :
    extract_video_id "https://www.youtube.com/live/uADWm8KRXlY?si=X3MULU1tEykdGoI5&t=799"
        = none
    ∧ classify_url
        (.vStr "https://www.youtube.com/live/uADWm8KRXlY?si=X3MULU1tEykdGoI5&t=799")
        "youtube"
        = ⟨false, "youtube", none⟩ := by
  refine ⟨by decide, by decide⟩

end TripleTen




